import Mathlib

/-!
Verification of the AI resume builder backend (Python sources under `app/`).

The Python helpers and services are shallowly embedded as Lean functions:
strings become `String`/`List Char`, dictionaries with fixed string keys
become association lists `List (String × String)` updated in place, JSON
values become the inductive `JValue`, and the external text-generation call
becomes the explicit outcome type `AIResult` (the call either raises or
yields a completion string).  Python floats are modelled by `ℚ`.
-/

set_option autoImplicit false

namespace ResumeBackend

/-- Shorthand used throughout: the character list of a string literal. -/
def toL (s : String) : List Char := s.toList

/-- Model of Python `str.isspace` characters (as used by `str.strip` and
`str.split` with no argument): space, tab, newline, carriage return,
vertical tab, form feed. -/
def pyIsSpace (c : Char) : Bool :=
  c = ' ' || c = '\t' || c = '\n' || c = '\r' || c = '\x0b' || c = '\x0c'

/-- Model of Python `str.strip()` on a character list: drop whitespace from
both ends. -/
def pyStrip (cs : List Char) : List Char :=
  ((cs.dropWhile pyIsSpace).reverse.dropWhile pyIsSpace).reverse

/-- Model of Python `str.lower()` (ASCII case folding, which is all the
resume sources exercise). -/
def lowerL (cs : List Char) : List Char := cs.map Char.toLower

/-- Model of Python `text.split('\n')`: split at every newline, keeping
empty pieces (so the empty text yields one empty line). -/
def splitNl : List Char → List (List Char)
  | [] => [[]]
  | c :: rest =>
    if c = '\n' then [] :: splitNl rest
    else
      match splitNl rest with
      | l :: ls => (c :: l) :: ls
      | [] => [[c]]

/-- Model of Python `'\n'.join(...)` on character lists. -/
def joinNlL : List (List Char) → List Char
  | [] => []
  | [l] => l
  | l :: ls => l ++ '\n' :: joinNlL ls

/-- Tests whether `p` is a leading piece of `cs` (character-exact). -/
def isPre : List Char → List Char → Bool
  | [], _ => true
  | _ :: _, [] => false
  | p :: ps, c :: cs => p = c && isPre ps cs

/-- Model of Python substring membership `needle in hay`. -/
def hasSub (needle : List Char) : List Char → Bool
  | [] => isPre needle []
  | c :: rest => isPre needle (c :: rest) || hasSub needle rest

/-- String-level wrapper for `hasSub`: does `hay` contain `sub`? -/
def strContainsSub (hay sub : String) : Bool := hasSub (toL sub) (toL hay)

/-- Model of Python `str.split()` with no argument: split on runs of
whitespace, discarding empty tokens.  The accumulator holds the current
token reversed. -/
def splitWsAux : List Char → List Char → List (List Char)
  | [], acc => if acc = [] then [] else [acc.reverse]
  | c :: rest, acc =>
    if pyIsSpace c then
      if acc = [] then splitWsAux rest [] else acc.reverse :: splitWsAux rest []
    else splitWsAux rest (c :: acc)

/-- Model of Python `str.split()` with no argument. -/
def splitWs (cs : List Char) : List (List Char) := splitWsAux cs []

/-- Association-list update at an existing key, modelling assignment
`sections[k] = v` on a Python dict whose key set already contains `k`. -/
def updateVal (k : String) (v : String) : List (String × String) → List (String × String)
  | [] => []
  | (k2, v2) :: rest => if k2 = k then (k2, v) :: rest else (k2, v2) :: updateVal k v rest

/-- Association-list lookup, modelling Python `sections[k]` access. -/
def lookupA (k : String) : List (String × String) → Option String
  | [] => none
  | (k2, v) :: rest => if k2 = k then some v else lookupA k rest

/-- Key list of an association list (the dict key order). -/
def keysOf (l : List (String × String)) : List String := l.map Prod.fst

/-- The six resume section names used by both segmentation algorithms. -/
inductive SectionName where
  | summary
  | experience
  | education
  | skills
  | projects
  | certifications
deriving DecidableEq

/-- Dictionary key of a section, as spelled in the Python sources. -/
def key : SectionName → String
  | .summary => "summary"
  | .experience => "experience"
  | .education => "education"
  | .skills => "skills"
  | .projects => "projects"
  | .certifications => "certifications"

/-!
Anchored-regex extraction, `helpers.extract_text_sections`.

Each regex has the shape `(?:syn1|syn2|...)(.*?)(?=(?:la1|la2|...|$))` with
`re.IGNORECASE | re.DOTALL`.  A synonym such as `professional\s+summary` is
a sequence of literal words separated by one-or-more whitespace; matching
is case-insensitive (the pattern words are lower case) while the captured
text keeps the original characters.  `re.search` finds the leftmost
position where some alternative matches (alternatives tried in order), and
the lazy group then extends to the first position where some lookahead
alternative matches, or to the end of the string.
-/

/-- Case-insensitive literal word match; returns the rest of the input on
success.  Pattern characters are lower case. -/
def litMatch : List Char → List Char → Option (List Char)
  | [], cs => some cs
  | _ :: _, [] => none
  | p :: ps, c :: cs => if Char.toLower c = p then litMatch ps cs else none

/-- Model of greedy `\s+` followed by a word that starts with a non-space
character: consume one-or-more whitespace characters maximally. -/
def wsPlus : List Char → Option (List Char)
  | [] => none
  | c :: cs => if pyIsSpace c then some (cs.dropWhile pyIsSpace) else none

/-- Match the remaining words of a synonym, each preceded by `\s+`. -/
def wordsTail : List (List Char) → List Char → Option (List Char)
  | [], cs => some cs
  | w :: ws, cs =>
    match wsPlus cs with
    | none => none
    | some r1 =>
      match litMatch w r1 with
      | none => none
      | some r2 => wordsTail ws r2

/-- Match one synonym (a nonempty word sequence) at the head of the input;
returns the rest of the input after the synonym. -/
def synMatch : List (List Char) → List Char → Option (List Char)
  | [], cs => some cs
  | w :: ws, cs =>
    match litMatch w cs with
    | none => none
    | some r => wordsTail ws r

/-- Try the synonym alternatives in order at the head of the input. -/
def anySyn : List (List (List Char)) → List Char → Option (List Char)
  | [], _ => none
  | syn :: rest, cs =>
    match synMatch syn cs with
    | some r => some r
    | none => anySyn rest cs

/-- Boolean form of `anySyn`, used for lookahead tests. -/
def anySynB (ls : List (List (List Char))) (cs : List Char) : Bool :=
  (anySyn ls cs).isSome

/-- Leftmost synonym match in the input, modelling `re.search` on the
anchoring alternation; returns the input rest after the matched synonym. -/
def findSynRest (ls : List (List (List Char))) : List Char → Option (List Char)
  | [] => anySyn ls []
  | c :: rest =>
    match anySyn ls (c :: rest) with
    | some r => some r
    | none => findSynRest ls rest

/-- Length of the lazy capture `(.*?)(?=(?:la|$))`: the distance to the
first position where a lookahead synonym matches, or to the end. -/
def firstStopLen (ls : List (List (List Char))) : List Char → Nat
  | [] => 0
  | c :: rest => if anySynB ls (c :: rest) then 0 else firstStopLen ls rest + 1

/-- Anchor synonyms of each section pattern in
`helpers.extract_text_sections`, in alternation order. -/
def synsL : SectionName → List (List (List Char))
  | .summary => [[toL "professional", toL "summary"], [toL "objective"], [toL "about"], [toL "profile"]]
  | .experience => [[toL "professional", toL "experience"], [toL "work", toL "history"], [toL "employment"]]
  | .education => [[toL "education"], [toL "academic"]]
  | .skills => [[toL "skills"], [toL "technical", toL "skills"]]
  | .projects => [[toL "projects"], [toL "portfolio"], [toL "work", toL "samples"]]
  | .certifications => [[toL "certification"], [toL "license"]]

/-- Lookahead synonyms of each section pattern in
`helpers.extract_text_sections` (the `$` alternative is handled by
`firstStopLen` reaching the end of the input). -/
def lasL : SectionName → List (List (List Char))
  | .summary => [[toL "professional", toL "experience"], [toL "education"], [toL "skills"], [toL "projects"], [toL "certification"]]
  | .experience => [[toL "education"], [toL "skills"], [toL "projects"], [toL "certification"]]
  | .education => [[toL "skills"], [toL "projects"], [toL "certification"]]
  | .skills => [[toL "projects"], [toL "certification"]]
  | .projects => [[toL "certification"]]
  | .certifications => []

/-- One iteration of the pattern loop in `helpers.extract_text_sections`:
search the pattern of section `s` in the text and, on a match, assign the
stripped capture to the section key. -/
def applySection (cs : List Char) (secs : List (String × String)) (s : SectionName) :
    List (String × String) :=
  match findSynRest (synsL s) cs with
  | none => secs
  | some tail =>
    updateVal (key s) (String.mk (pyStrip (tail.take (firstStopLen (lasL s) tail)))) secs

/-- Pattern order of the dict `section_patterns` in `helpers.py`. -/
def sectionOrderH : List SectionName :=
  [.summary, .experience, .education, .skills, .projects, .certifications]

/-- Initial sections dict of `helpers.extract_text_sections`. -/
def sections0H : List (String × String) :=
  [("summary", ""), ("experience", ""), ("education", ""), ("skills", ""),
   ("projects", ""), ("certifications", "")]

/-- Model of `helpers.extract_text_sections`. -/
def extract_text_sections (text : String) : List (String × String) :=
  sectionOrderH.foldl (applySection (toL text)) sections0H

/-!
Line-scanning extraction, `PDFParser.extract_sections`.
-/

/-- Keyword lists of `section_keywords` in `pdf_parser.py`. -/
def kwOf : SectionName → List String
  | .education => ["education", "academic", "qualification", "degree", "university"]
  | .experience => ["experience", "work history", "employment", "professional experience"]
  | .skills => ["skills", "technical skills", "competencies", "abilities"]
  | .projects => ["projects", "portfolio", "work samples"]
  | .certifications => ["certifications", "certificates", "licenses", "awards"]
  | .summary => ["summary", "objective", "professional summary", "about", "profile"]

/-- Iteration order of the dict `section_keywords` in `pdf_parser.py`. -/
def sectionOrderP : List SectionName :=
  [.education, .experience, .skills, .projects, .certifications, .summary]

/-- Initial sections dict of `PDFParser.extract_sections`. -/
def sections0P : List (String × String) :=
  [("education", ""), ("experience", ""), ("skills", ""), ("projects", ""),
   ("certifications", ""), ("summary", "")]

/-- Boundary test of `PDFParser.extract_sections`: the first section (in
dict order) whose keyword occurs in the lower-cased stripped line, provided
that stripped line is shorter than 50 characters. -/
def lineSection (line : List Char) : Option SectionName :=
  let ll := pyStrip (lowerL line)
  sectionOrderP.find? fun s =>
    ((kwOf s).any fun kw => hasSub (toL kw) ll) && decide (ll.length < 50)

/-- Commit step of `PDFParser.extract_sections`: store the accumulated
lines under the active section, if there is one and the accumulator is
nonempty. -/
def commitAcc (secs : List (String × String)) (cur : Option SectionName)
    (acc : List (List Char)) : List (String × String) :=
  match cur with
  | none => secs
  | some c => if acc = [] then secs else updateVal (key c) (String.mk (joinNlL acc)) secs

/-- The line loop of `PDFParser.extract_sections`. -/
def extractLoop (secs : List (String × String)) (cur : Option SectionName)
    (acc : List (List Char)) : List (List Char) → List (String × String)
  | [] => commitAcc secs cur acc
  | l :: rest =>
    match lineSection l with
    | some s2 => extractLoop (commitAcc secs cur acc) (some s2) [] rest
    | none =>
      if cur.isSome ∧ pyStrip l ≠ [] then extractLoop secs cur (acc ++ [l]) rest
      else extractLoop secs cur acc rest

/-- Model of `PDFParser.extract_sections`. -/
def extract_sections (text : String) : List (String × String) :=
  extractLoop sections0P none [] (splitNl (toL text))

/-!
Spec-described variant of the anchored-regex extraction, used to compare
the code against the literal reading of the specification.
-/

/-- Modelled from the spec: the specification describes each lookahead
alternation as the union of ALL other sections synonym lists.  The code
instead uses only the first synonym of each later section; this definition
follows the spec wording so the two can be compared. -/
def lasAllOthers (s : SectionName) : List (List (List Char)) :=
  (sectionOrderH.filter (· ≠ s)).flatMap synsL

/-- Modelled from the spec: one pattern application with the
union-of-all-other-sections lookahead described by the specification. -/
def applySectionSpec (cs : List Char) (secs : List (String × String)) (s : SectionName) :
    List (String × String) :=
  match findSynRest (synsL s) cs with
  | none => secs
  | some tail =>
    updateVal (key s) (String.mk (pyStrip (tail.take (firstStopLen (lasAllOthers s) tail)))) secs

/-- Modelled from the spec: the anchored-regex extraction as the
specification words it (lookahead = union of all other sections synonym
lists plus end-of-text). -/
def extract_text_sections_specLookahead (text : String) : List (String × String) :=
  sectionOrderH.foldl (applySectionSpec (toL text)) sections0H

/-!
The AI response interpreter: the greedy regex spans `\{.*\}` and `\[.*\]`
(with `re.DOTALL`) used in `ats_scorer.py` and `ai_enhancer.py`, and a
model of `json.loads`.
-/

/-- Longest piece of the input ending at the last occurrence of `cl`,
inclusive; `none` when `cl` does not occur.  This is the greedy `.*`
followed by the literal `cl` under `re.DOTALL`. -/
def takeToLast (cl : Char) : List Char → Option (List Char)
  | [] => none
  | c :: rest =>
    match takeToLast cl rest with
    | some t => some (c :: t)
    | none => if c = cl then some [c] else none

/-- Model of `re.search` for the pattern `op.*cl` (dot matching newlines):
the match starts at the first occurrence of `op` that has some `cl` after
it and extends greedily to the last such `cl`. -/
def gSpan (op cl : Char) : List Char → Option (List Char)
  | [] => none
  | c :: rest =>
    if c = op then
      match takeToLast cl rest with
      | some t => some (c :: t)
      | none => gSpan op cl rest
    else gSpan op cl rest

/-- JSON values, the result domain of `json.loads`. -/
inductive JValue where
  | jnull
  | jbool (b : Bool)
  | jnum (n : Int)
  | jstr (s : String)
  | jarr (elems : List JValue)
  | jobj (members : List (String × JValue))

/-- JSON whitespace accepted between tokens. -/
def jsonWsChar (c : Char) : Bool := c = ' ' || c = '\t' || c = '\n' || c = '\r'

/-- Skip JSON whitespace. -/
def skipWs (cs : List Char) : List Char := cs.dropWhile jsonWsChar

/-- Exact literal match (case-sensitive), for `null`, `true`, `false`. -/
def litE : List Char → List Char → Option (List Char)
  | [], cs => some cs
  | _ :: _, [] => none
  | p :: ps, c :: cs => if c = p then litE ps cs else none

/-- JSON string escape characters (the `\u` form is not modelled).  The
quote, backslash and slash escapes decode to themselves. -/
def escChar (c : Char) : Option Char :=
  if c = '"' ∨ c = '\\' ∨ c = '/' then some c
  else if c = 'n' then some '\n'
  else if c = 't' then some '\t'
  else if c = 'r' then some '\r'
  else if c = 'b' then some '\x08'
  else if c = 'f' then some '\x0c'
  else none

/-- Parse the body of a JSON string after the opening quote; returns the
decoded characters and the rest after the closing quote. -/
def parseStrBody : List Char → Option (List Char × List Char)
  | [] => none
  | '"' :: rest => some ([], rest)
  | '\\' :: e :: rest =>
    match escChar e with
    | none => none
    | some ec =>
      match parseStrBody rest with
      | some (s, r) => some (ec :: s, r)
      | none => none
  | '\\' :: [] => none
  | c :: rest =>
    if c.toNat < 32 then none
    else
      match parseStrBody rest with
      | some (s, r) => some (c :: s, r)
      | none => none

/-- Consume decimal digits, accumulating their value. -/
def digitsAux : List Char → Nat → Nat × List Char
  | [], acc => (acc, [])
  | c :: rest, acc =>
    if c.isDigit then digitsAux rest (acc * 10 + (c.toNat - 48)) else (acc, c :: rest)

/-- Parse an unsigned JSON integer (no leading zeros). -/
def parseNumCore : List Char → Option (Int × List Char)
  | [] => none
  | '0' :: rest =>
    match rest with
    | c :: _ => if c.isDigit then none else some (0, rest)
    | [] => some (0, [])
  | c :: rest =>
    if c.isDigit then
      let p := digitsAux rest (c.toNat - 48)
      some ((p.1 : Int), p.2)
    else none

/-- Parse a JSON integer with optional minus sign.  Fractional and
exponent forms are not modelled; a trailing `.` or `e` makes the enclosing
parse fail instead of producing a float. -/
def parseNum : List Char → Option (Int × List Char)
  | '-' :: rest =>
    match parseNumCore rest with
    | some (n, r) => some (-n, r)
    | none => none
  | cs => parseNumCore cs

mutual

/-- Recursive-descent JSON value parser, a model of `json.loads`.  The
fuel only bounds nesting and is chosen large enough at the top level. -/
def parseVal : Nat → List Char → Option (JValue × List Char)
  | 0, _ => none
  | fuel + 1, cs =>
    match skipWs cs with
    | [] => none
    | c :: rest =>
      if c = 'n' then
        match litE (toL "ull") rest with
        | some r => some (.jnull, r)
        | none => none
      else if c = 't' then
        match litE (toL "rue") rest with
        | some r => some (.jbool true, r)
        | none => none
      else if c = 'f' then
        match litE (toL "alse") rest with
        | some r => some (.jbool false, r)
        | none => none
      else if c = '"' then
        match parseStrBody rest with
        | some (s, r) => some (.jstr (String.mk s), r)
        | none => none
      else if c = '[' then
        match skipWs rest with
        | ']' :: r2 => some (.jarr [], r2)
        | _ =>
          match parseElems fuel rest with
          | some (vs, r2) => some (.jarr vs, r2)
          | none => none
      else if c = '\x7b' then
        match skipWs rest with
        | '\x7d' :: r2 => some (.jobj [], r2)
        | _ =>
          match parseMembers fuel rest with
          | some (ms, r2) => some (.jobj ms, r2)
          | none => none
      else
        match parseNum (c :: rest) with
        | some (n, r) => some (.jnum n, r)
        | none => none

/-- Parse the comma-separated elements of a JSON array up to `]`. -/
def parseElems : Nat → List Char → Option (List JValue × List Char)
  | 0, _ => none
  | fuel + 1, cs =>
    match parseVal fuel cs with
    | none => none
    | some (v, r) =>
      match skipWs r with
      | ']' :: r2 => some ([v], r2)
      | ',' :: r2 =>
        match parseElems fuel r2 with
        | some (vs, r3) => some (v :: vs, r3)
        | none => none
      | _ => none

/-- Parse the comma-separated members of a JSON object up to the closing
brace. -/
def parseMembers : Nat → List Char → Option (List (String × JValue) × List Char)
  | 0, _ => none
  | fuel + 1, cs =>
    match skipWs cs with
    | '"' :: r =>
      match parseStrBody r with
      | none => none
      | some (k, r2) =>
        match skipWs r2 with
        | ':' :: r3 =>
          match parseVal fuel r3 with
          | none => none
          | some (v, r4) =>
            match skipWs r4 with
            | '\x7d' :: r5 => some ([(String.mk k, v)], r5)
            | ',' :: r5 =>
              match parseMembers fuel r5 with
              | some (ms, r6) => some ((String.mk k, v) :: ms, r6)
              | none => none
            | _ => none
        | _ => none
    | _ => none

end

/-- Model of `json.loads`: parse one value and require only whitespace
after it. -/
def parseJson (s : String) : Option JValue :=
  let cs := toL s
  match parseVal (2 * cs.length + 2) cs with
  | some (v, r) => if skipWs r = [] then some v else none
  | none => none

/-- Member lookup in a JSON object. -/
def jGet (v : JValue) (k : String) : Option JValue :=
  match v with
  | .jobj ms => (ms.find? fun p => p.1 = k).map Prod.snd
  | _ => none

/-!
The services.  The external text-generation call (`model.generate_content`
followed by `.text`) either raises or yields a completion string; all the
service methods run it inside `try`/`except`, so they are total functions
of that outcome.
-/

/-- Outcome of the external text-generation call: it raises, or it yields
a completion string. -/
inductive AIResult where
  | err
  | ok (text : String)

/-- Model of `ATSScorer._get_default_score`. -/
def get_default_score : JValue :=
  .jobj [
    ("score", .jnum 65),
    ("missing_keywords", .jarr [
      .jstr "achievement metrics",
      .jstr "action verbs",
      .jstr "relevant certifications",
      .jstr "quantifiable results"]),
    ("suggestions", .jarr [
      .jstr "Add quantifiable achievements with numbers/percentages",
      .jstr "Use strong action verbs (Led, Developed, Implemented, etc.)",
      .jstr "Include relevant keywords from job description",
      .jstr "Ensure clear section headers (Experience, Education, Skills)",
      .jstr "Keep formatting simple and ATS-friendly (no tables or graphics)"]),
    ("sections_analysis", .jobj [
      ("contact_info", .jobj [("score", .jnum 85), ("issues", .jarr [])]),
      ("experience", .jobj [("score", .jnum 70), ("issues", .jarr [
        .jstr "Add more quantifiable results", .jstr "Use stronger action verbs"])]),
      ("education", .jobj [("score", .jnum 80), ("issues", .jarr [])]),
      ("skills", .jobj [("score", .jnum 60), ("issues", .jarr [
        .jstr "Add more relevant technical skills", .jstr "Include industry keywords"])])]),
    ("summary", .jstr "Resume has moderate ATS compatibility. Focus on quantifiable achievements and relevant keywords.")]

/-- Model of `ATSScorer.calculate_ats_score`: strip the completion, take
the greedy first-brace-to-last-brace span, parse it; any failure yields
the default score. -/
def calculate_ats_score (ai : AIResult) : JValue :=
  match ai with
  | .err => get_default_score
  | .ok t =>
    match gSpan '\x7b' '\x7d' (pyStrip (toL t)) with
    | none => get_default_score
    | some sp =>
      match parseJson (String.mk sp) with
      | none => get_default_score
      | some v => v

/-- Model of `AIEnhancer.enhance_resume_content`: like the scorer, but any
failure returns the original resume data unchanged. -/
def enhance_resume_content (resume_data : JValue) (ai : AIResult) : JValue :=
  match ai with
  | .err => resume_data
  | .ok t =>
    match gSpan '\x7b' '\x7d' (pyStrip (toL t)) with
    | none => resume_data
    | some sp =>
      match parseJson (String.mk sp) with
      | none => resume_data
      | some v => v

/-- The canned suggestion list of `AIEnhancer.suggest_improvements`. -/
def canned_suggestions : JValue :=
  .jarr [
    .jstr "Add more quantifiable achievements with metrics",
    .jstr "Use stronger action verbs for better impact",
    .jstr "Include relevant industry keywords",
    .jstr "Keep formatting simple and ATS-friendly",
    .jstr "Tailor content to target position"]

/-- Model of `AIEnhancer.suggest_improvements`: no bracket span yields the
canned list; a span that fails to parse yields the empty list, as does a
raising call. -/
def suggest_improvements (ai : AIResult) : JValue :=
  match ai with
  | .err => .jarr []
  | .ok t =>
    match gSpan '[' ']' (pyStrip (toL t)) with
    | none => canned_suggestions
    | some sp =>
      match parseJson (String.mk sp) with
      | none => .jarr []
      | some v => v

/-!
Score comparison and keyword density.
-/

/-- Model of Python formatting `f"{x:.1f}"` for the nonnegative values the
comparison messages interpolate. -/
def fmt1 (q : ℚ) : String :=
  let m := (⌊q * 10 + 1 / 2⌋).toNat
  toString (m / 10) ++ "." ++ toString (m % 10)

/-- Model of `ATSScorer.compare_scores`. -/
def compare_scores (original enhanced : ℚ) : List String :=
  let diff := enhanced - original
  let pct : ℚ := if 0 < original then diff / original * 100 else 0
  if 30 < diff then
    ["🌟 Excellent improvement! Score increased by " ++ fmt1 diff ++ " points (" ++ fmt1 pct ++ "%)",
     "Your resume is now highly optimized for ATS systems"]
  else if 15 < diff then
    ["✅ Great improvement! Score increased by " ++ fmt1 diff ++ " points",
     "Resume is much more ATS-compatible now"]
  else if 5 < diff then
    ["👍 Good improvement! Score increased by " ++ fmt1 diff ++ " points",
     "Resume quality has been enhanced"]
  else if 0 ≤ diff then
    ["Score adjusted by " ++ fmt1 diff ++ " points"]
  else
    ["Score maintained from original version"]

/-- Round half to even on a rational, the tie rule of Python `round`. -/
def rhe (q : ℚ) : Int :=
  let f := ⌊q⌋
  let r := q - (f : ℚ)
  if r < 1 / 2 then f
  else if 1 / 2 < r then f + 1
  else if f % 2 = 0 then f else f + 1

/-- Model of Python `round(x, 2)`. -/
def round2 (q : ℚ) : ℚ := (rhe (q * 100) : ℚ) / 100

/-- Model of `helpers.get_keyword_density`. -/
def get_keyword_density (text keyword : String) : ℚ :=
  let words := splitWs (lowerL (toL text))
  let kw := lowerL (toL keyword)
  if words.length = 0 then 0
  else round2 (((words.countP fun w => hasSub kw w) : ℚ) / (words.length : ℚ) * 100)

/-!
Helper lemmas about association lists and section keys.
-/

lemma keysOf_updateVal (k v : String) (l : List (String × String)) :
    keysOf (updateVal k v l) = keysOf l := by
  induction l with
  | nil => rfl
  | cons p rest ih =>
    obtain ⟨k2, v2⟩ := p
    by_cases h : k2 = k
    · simp [updateVal, keysOf, h]
    · simp only [updateVal, keysOf, h, if_false, List.map_cons]
      simpa [keysOf] using ih

lemma lookupA_updateVal_ne (k2 k v : String) (l : List (String × String)) (h : k2 ≠ k) :
    lookupA k2 (updateVal k v l) = lookupA k2 l := by
  induction l with
  | nil => rfl
  | cons p rest ih =>
    obtain ⟨k3, v3⟩ := p
    by_cases h3 : k3 = k
    · subst h3
      have hne : ¬ k3 = k2 := fun hh => h hh.symm
      simp [updateVal, lookupA, hne]
    · by_cases h2 : k3 = k2
      · subst h2
        simp [updateVal, lookupA, h3]
      · simp [updateVal, lookupA, h3, h2, ih]

lemma lookupA_updateVal_mem (k v : String) (l : List (String × String))
    (h : k ∈ keysOf l) : lookupA k (updateVal k v l) = some v := by
  induction l with
  | nil => simp [keysOf] at h
  | cons p rest ih =>
    obtain ⟨k3, v3⟩ := p
    by_cases h3 : k3 = k
    · simp [updateVal, lookupA, h3]
    · have hmem : k ∈ keysOf rest := by
        have h2 := h
        simp only [keysOf, List.map_cons, List.mem_cons] at h2
        rcases h2 with h1 | h1
        · exact absurd h1.symm h3
        · simpa [keysOf] using h1
      simp [updateVal, lookupA, h3, ih hmem]

lemma mem_of_lookupA (k v : String) (l : List (String × String))
    (h : lookupA k l = some v) : (k, v) ∈ l := by
  induction l with
  | nil => simp [lookupA] at h
  | cons p rest ih =>
    obtain ⟨k3, v3⟩ := p
    by_cases h3 : k3 = k
    · subst h3
      have h2 : v3 = v := by simpa [lookupA] using h
      subst h2
      exact List.mem_cons_self _ _
    · simp only [lookupA, h3, if_false] at h
      exact List.mem_cons_of_mem _ (ih h)

lemma mem_updateVal (k v : String) (p : String × String) (l : List (String × String))
    (h : p ∈ updateVal k v l) : p ∈ l ∨ p.2 = v := by
  induction l with
  | nil => simp [updateVal] at h
  | cons q rest ih =>
    obtain ⟨k3, v3⟩ := q
    by_cases h3 : k3 = k
    · simp [updateVal, h3] at h
      rcases h with h | h
      · right; simp [h]
      · left; exact List.mem_cons_of_mem _ h
    · simp [updateVal, h3] at h
      rcases h with h | h
      · left; simp [h]
      · rcases ih h with h1 | h2
        · exact Or.inl (List.mem_cons_of_mem _ h1)
        · exact Or.inr h2

lemma key_injective (a b : SectionName) (h : key a = key b) : a = b := by
  cases a <;> cases b <;> revert h <;> decide

/-!
Helper lemmas about the greedy span `op.*cl`.
-/

lemma takeToLast_not_mem (cl : Char) (l : List Char) (h : cl ∉ l) :
    takeToLast cl l = none := by
  induction l with
  | nil => rfl
  | cons c rest ih =>
    have hc : ¬ c = cl := fun hh => h (hh ▸ List.mem_cons_self c rest)
    have hr : cl ∉ rest := fun hh => h (List.mem_cons_of_mem _ hh)
    simp [takeToLast, ih hr, hc]

lemma takeToLast_last (cl : Char) (mid post : List Char) (h : cl ∉ post) :
    takeToLast cl (mid ++ cl :: post) = some (mid ++ [cl]) := by
  induction mid with
  | nil => simp [takeToLast, takeToLast_not_mem cl post h]
  | cons c rest ih => simp [takeToLast, ih]

lemma gSpan_spec (op cl : Char) (pre mid post : List Char)
    (hpre : op ∉ pre) (hpost : cl ∉ post) :
    gSpan op cl (pre ++ (op :: (mid ++ (cl :: post)))) = some (op :: (mid ++ [cl])) := by
  induction pre with
  | nil => simp [gSpan, takeToLast_last cl mid post hpost]
  | cons c rest ih =>
    have hc : ¬ c = op := fun hh => hpre (hh ▸ List.mem_cons_self c rest)
    have hr : op ∉ rest := fun hh => hpre (List.mem_cons_of_mem _ hh)
    simpa [gSpan, hc] using ih hr

/-!
Helper lemmas about the anchored-regex extraction.
-/

lemma keysOf_applySection (cs : List Char) (secs : List (String × String)) (s : SectionName) :
    keysOf (applySection cs secs s) = keysOf secs := by
  unfold applySection
  cases findSynRest (synsL s) cs with
  | none => rfl
  | some tail => exact keysOf_updateVal _ _ _

lemma lookupA_applySection_ne (cs : List Char) (secs : List (String × String))
    (s : SectionName) (k : String) (h : key s ≠ k) :
    lookupA k (applySection cs secs s) = lookupA k secs := by
  unfold applySection
  cases findSynRest (synsL s) cs with
  | none => rfl
  | some tail => exact lookupA_updateVal_ne k (key s) _ secs (fun hh => h hh.symm)

lemma keysOf_foldH (cs : List Char) (sl : List SectionName) :
    ∀ secs : List (String × String),
      keysOf (sl.foldl (applySection cs) secs) = keysOf secs := by
  induction sl with
  | nil => intro secs; rfl
  | cons s rest ih =>
    intro secs
    simp only [List.foldl_cons]
    rw [ih, keysOf_applySection]

lemma lookupA_foldH_ne (cs : List Char) (sl : List SectionName) (k : String) :
    ∀ secs : List (String × String), (∀ a ∈ sl, key a ≠ k) →
      lookupA k (sl.foldl (applySection cs) secs) = lookupA k secs := by
  induction sl with
  | nil => intro secs _; rfl
  | cons s rest ih =>
    intro secs h
    simp only [List.foldl_cons]
    rw [ih _ fun a ha => h a (List.mem_cons_of_mem _ ha),
      lookupA_applySection_ne _ _ _ _ (h s (List.mem_cons_self _ _))]

lemma key_mem_keysOf_sections0H (s : SectionName) : key s ∈ keysOf sections0H := by
  cases s <;> decide

lemma lookupA_sections0H (s : SectionName) : lookupA (key s) sections0H = some "" := by
  cases s <;> rfl

lemma lookupA_sections0P (s : SectionName) : lookupA (key s) sections0P = some "" := by
  cases s <;> rfl

/-- Lookup of the own key of a pattern application: unchanged when the
anchor does not match, the stripped capture otherwise. -/
lemma lookupA_applySection_self (cs : List Char) (secs : List (String × String))
    (s : SectionName) (hmem : key s ∈ keysOf secs) :
    lookupA (key s) (applySection cs secs s)
      = match findSynRest (synsL s) cs with
        | none => lookupA (key s) secs
        | some tail => some (String.mk (pyStrip (tail.take (firstStopLen (lasL s) tail)))) := by
  unfold applySection
  cases findSynRest (synsL s) cs with
  | none => rfl
  | some tail => exact lookupA_updateVal_mem _ _ _ hmem

/-- Full characterization of one section value of `extract_text_sections`:
empty when the anchor does not match, otherwise the stripped lazy capture
after the leftmost anchor match. -/
lemma lookupA_extract_text_sections (text : String) (s : SectionName) :
    lookupA (key s) (extract_text_sections text)
      = some (match findSynRest (synsL s) (toL text) with
          | none => ""
          | some tail => String.mk (pyStrip (tail.take (firstStopLen (lasL s) tail)))) := by
  have step :
      ∀ (l1 l2 : List SectionName), s ∉ l1 → s ∉ l2 →
        sectionOrderH = l1 ++ s :: l2 →
        lookupA (key s) (extract_text_sections text)
          = some (match findSynRest (synsL s) (toL text) with
              | none => ""
              | some tail => String.mk (pyStrip (tail.take (firstStopLen (lasL s) tail)))) := by
    intro l1 l2 h1 h2 hdec
    have hne1 : ∀ a ∈ l1, key a ≠ key s :=
      fun a ha hk => h1 ((key_injective a s hk) ▸ ha)
    have hne2 : ∀ a ∈ l2, key a ≠ key s :=
      fun a ha hk => h2 ((key_injective a s hk) ▸ ha)
    unfold extract_text_sections
    rw [hdec, List.foldl_append, List.foldl_cons]
    rw [lookupA_foldH_ne _ _ _ _ hne2]
    rw [lookupA_applySection_self _ _ _
      (by rw [keysOf_foldH]; exact key_mem_keysOf_sections0H s)]
    cases findSynRest (synsL s) (toL text) with
    | none => rw [lookupA_foldH_ne _ _ _ _ hne1, lookupA_sections0H]
    | some tail => rfl
  cases s with
  | summary => exact step [] [.experience, .education, .skills, .projects, .certifications] (by decide) (by decide) rfl
  | experience => exact step [.summary] [.education, .skills, .projects, .certifications] (by decide) (by decide) rfl
  | education => exact step [.summary, .experience] [.skills, .projects, .certifications] (by decide) (by decide) rfl
  | skills => exact step [.summary, .experience, .education] [.projects, .certifications] (by decide) (by decide) rfl
  | projects => exact step [.summary, .experience, .education, .skills] [.certifications] (by decide) (by decide) rfl
  | certifications => exact step [.summary, .experience, .education, .skills, .projects] [] (by decide) (by decide) rfl

/-- Minimality of the lazy capture: no lookahead synonym matches strictly
inside the captured span. -/
lemma firstStopLen_not_before (ls : List (List (List Char))) :
    ∀ cs : List Char, ∀ j, j < firstStopLen ls cs → anySynB ls (cs.drop j) = false := by
  intro cs
  induction cs with
  | nil => intro j hj; simp [firstStopLen] at hj
  | cons c rest ih =>
    intro j hj
    by_cases h : anySynB ls (c :: rest)
    · simp [firstStopLen, h] at hj
    · rw [Bool.not_eq_true] at h
      cases j with
      | zero => simpa using h
      | succ j2 =>
        simp only [firstStopLen, h, Bool.false_eq_true, if_false] at hj
        exact ih j2 (by omega)

/-- The lazy capture stops at the end of the input or at a position where
some lookahead synonym matches. -/
lemma firstStopLen_stop (ls : List (List (List Char))) :
    ∀ cs : List Char,
      firstStopLen ls cs = cs.length ∨ anySynB ls (cs.drop (firstStopLen ls cs)) = true := by
  intro cs
  induction cs with
  | nil => left; rfl
  | cons c rest ih =>
    by_cases h : anySynB ls (c :: rest)
    · right; simp [firstStopLen, h]
    · rw [Bool.not_eq_true] at h
      rcases ih with h1 | h2
      · left; simp [firstStopLen, h, h1]
      · right; simpa [firstStopLen, h] using h2

/-!
Helper lemmas about the line-scanning extraction.
-/

lemma keysOf_commitAcc (secs : List (String × String)) (cur : Option SectionName)
    (acc : List (List Char)) : keysOf (commitAcc secs cur acc) = keysOf secs := by
  unfold commitAcc
  cases cur with
  | none => rfl
  | some c =>
    by_cases h : acc = []
    · simp [h]
    · simp [h, keysOf_updateVal]

lemma lookupA_commitAcc_ne (secs : List (String × String)) (cur : Option SectionName)
    (acc : List (List Char)) (k : String) (h : ∀ c, cur = some c → key c ≠ k) :
    lookupA k (commitAcc secs cur acc) = lookupA k secs := by
  unfold commitAcc
  cases cur with
  | none => rfl
  | some c =>
    by_cases ha : acc = []
    · simp [ha]
    · simp only [ha, if_false]
      exact lookupA_updateVal_ne k (key c) _ secs fun hh => h c rfl hh.symm

lemma keysOf_extractLoop (lines : List (List Char)) :
    ∀ (secs : List (String × String)) (cur : Option SectionName) (acc : List (List Char)),
      keysOf (extractLoop secs cur acc lines) = keysOf secs := by
  induction lines with
  | nil => intro secs cur acc; exact keysOf_commitAcc _ _ _
  | cons l rest ih =>
    intro secs cur acc
    unfold extractLoop
    split
    next s2 heq => rw [ih, keysOf_commitAcc]
    next heq => split <;> exact ih _ _ _

/-- A section that no line triggers keeps its stored value through the
whole loop. -/
lemma lookupA_extractLoop_untouched (s : SectionName) (lines : List (List Char)) :
    ∀ (secs : List (String × String)) (cur : Option SectionName) (acc : List (List Char)),
      (∀ l ∈ lines, lineSection l ≠ some s) → cur ≠ some s →
      lookupA (key s) (extractLoop secs cur acc lines) = lookupA (key s) secs := by
  induction lines with
  | nil =>
    intro secs cur acc _ hcur
    exact lookupA_commitAcc_ne _ _ _ _ fun c hc hk =>
      hcur (by rw [hc, key_injective c s hk])
  | cons l rest ih =>
    intro secs cur acc hlines hcur
    unfold extractLoop
    split
    next s2 heq =>
      have hs2 : s2 ≠ s := fun hh =>
        hlines l (List.mem_cons_self _ _) (by rw [heq, hh])
      rw [ih _ _ _ (fun l2 hl2 => hlines l2 (List.mem_cons_of_mem _ hl2))
        (fun hh => hs2 (Option.some_inj.mp hh))]
      exact lookupA_commitAcc_ne _ _ _ _ fun c hc hk =>
        hcur (by rw [hc, key_injective c s hk])
    next heq =>
      split <;> exact ih _ _ _ (fun l2 hl2 => hlines l2 (List.mem_cons_of_mem _ hl2)) hcur

/-- Lines before the first boundary are discarded: with no active section
and an empty accumulator, a run of non-boundary lines leaves the loop
state unchanged. -/
lemma extractLoop_discard (pre : List (List Char)) :
    ∀ (secs : List (String × String)) (rest : List (List Char)),
      (∀ l ∈ pre, lineSection l = none) →
      extractLoop secs none [] (pre ++ rest) = extractLoop secs none [] rest := by
  induction pre with
  | nil => intro secs rest _; rfl
  | cons l pre2 ih =>
    intro secs rest h
    have hl : lineSection l = none := h l (List.mem_cons_self _ _)
    simp only [List.cons_append]
    conv_lhs => unfold extractLoop
    split
    next s2 heq => rw [hl] at heq; cases heq
    next heq =>
      rw [if_neg (by simp)]
      exact ih _ _ fun l2 hl2 => h l2 (List.mem_cons_of_mem _ hl2)

/-!
Helper lemmas about line splitting and joining.
-/

lemma splitNl_no_nl (cs : List Char) : ∀ l ∈ splitNl cs, ('\n' : Char) ∉ l := by
  induction cs with
  | nil =>
    intro l hl
    simp only [splitNl, List.mem_singleton] at hl
    simp [hl]
  | cons c rest ih =>
    intro l hl
    by_cases hc : c = '\n'
    · simp only [splitNl, hc, if_pos rfl] at hl
      rcases List.mem_cons.mp hl with h1 | h1
      · simp [h1]
      · exact ih l h1
    · simp only [splitNl, hc, if_false] at hl
      cases hsp : splitNl rest with
      | nil =>
        rw [hsp] at hl
        rw [List.mem_singleton.mp hl]
        intro hm
        exact hc (List.mem_singleton.mp hm).symm
      | cons r rs =>
        rw [hsp] at hl
        rcases List.mem_cons.mp hl with h1 | h1
        · subst h1
          intro hmem
          rcases List.mem_cons.mp hmem with h2 | h2
          · exact hc h2.symm
          · exact ih r (by simp [hsp]) h2
        · exact ih l (by simp [hsp, h1])

lemma splitNl_single (l : List Char) (h : ('\n' : Char) ∉ l) : splitNl l = [l] := by
  induction l with
  | nil => rfl
  | cons c rest ih =>
    have hc : ¬ c = '\n' := fun hh => h (hh ▸ List.mem_cons_self c rest)
    have hr : ('\n' : Char) ∉ rest := fun hh => h (List.mem_cons_of_mem _ hh)
    simp [splitNl, hc, ih hr]

lemma splitNl_append_nl (a t : List Char) (h : ('\n' : Char) ∉ a) :
    splitNl (a ++ '\n' :: t) = a :: splitNl t := by
  induction a with
  | nil => simp [splitNl]
  | cons c rest ih =>
    have hc : ¬ c = '\n' := fun hh => h (hh ▸ List.mem_cons_self c rest)
    have hr : ('\n' : Char) ∉ rest := fun hh => h (List.mem_cons_of_mem _ hh)
    simp [splitNl, hc, ih hr]

lemma splitNl_joinNlL (ls : List (List Char)) (hne : ls ≠ [])
    (h : ∀ l ∈ ls, ('\n' : Char) ∉ l) : splitNl (joinNlL ls) = ls := by
  induction ls with
  | nil => exact absurd rfl hne
  | cons a rest ih =>
    cases rest with
    | nil => exact splitNl_single a (h a (List.mem_cons_self _ _))
    | cons b rest2 =>
      have hjoin : joinNlL (a :: b :: rest2) = a ++ '\n' :: joinNlL (b :: rest2) := rfl
      rw [hjoin, splitNl_append_nl a _ (h a (List.mem_cons_self _ _)),
        ih (by simp) fun l hl => h l (List.mem_cons_of_mem _ hl)]

/-!
The no-blank-line invariant of the line loop (claim C10 support).
-/

lemma commitAcc_blankfree (secs : List (String × String)) (cur : Option SectionName)
    (acc : List (List Char))
    (hsecs : ∀ p ∈ secs, p.2 = "" ∨ ∀ l ∈ splitNl (toL p.2), pyStrip l ≠ [])
    (hacc : ∀ l ∈ acc, pyStrip l ≠ [] ∧ ('\n' : Char) ∉ l) :
    ∀ p ∈ commitAcc secs cur acc, p.2 = "" ∨ ∀ l ∈ splitNl (toL p.2), pyStrip l ≠ [] := by
  unfold commitAcc
  cases cur with
  | none => exact hsecs
  | some c =>
    by_cases ha : acc = []
    · simpa [ha] using hsecs
    · simp only [ha, if_false]
      intro p hp
      rcases mem_updateVal _ _ _ _ hp with h1 | h1
      · exact hsecs p h1
      · right
        rw [h1]
        have : toL (String.mk (joinNlL acc)) = joinNlL acc := rfl
        rw [this, splitNl_joinNlL acc ha fun l hl => (hacc l hl).2]
        exact fun l hl => (hacc l hl).1

lemma extractLoop_blankfree (lines : List (List Char)) :
    ∀ (secs : List (String × String)) (cur : Option SectionName) (acc : List (List Char)),
      (∀ p ∈ secs, p.2 = "" ∨ ∀ l ∈ splitNl (toL p.2), pyStrip l ≠ []) →
      (∀ l ∈ acc, pyStrip l ≠ [] ∧ ('\n' : Char) ∉ l) →
      (∀ l ∈ lines, ('\n' : Char) ∉ l) →
      ∀ p ∈ extractLoop secs cur acc lines,
        p.2 = "" ∨ ∀ l ∈ splitNl (toL p.2), pyStrip l ≠ [] := by
  induction lines with
  | nil =>
    intro secs cur acc hsecs hacc _
    exact commitAcc_blankfree secs cur acc hsecs hacc
  | cons l rest ih =>
    intro secs cur acc hsecs hacc hlines
    unfold extractLoop
    split
    next s2 heq =>
      exact ih _ _ _ (commitAcc_blankfree secs cur acc hsecs hacc) (by simp)
        fun l2 hl2 => hlines l2 (List.mem_cons_of_mem _ hl2)
    next heq =>
      split
      next hcond =>
        refine ih _ _ _ hsecs ?_ fun l2 hl2 => hlines l2 (List.mem_cons_of_mem _ hl2)
        intro l2 hl2
        rcases List.mem_append.mp hl2 with h1 | h1
        · exact hacc l2 h1
        · rw [List.mem_singleton.mp h1]
          exact ⟨hcond.2, hlines l (List.mem_cons_self _ _)⟩
      next hcond =>
        exact ih _ _ _ hsecs hacc fun l2 hl2 => hlines l2 (List.mem_cons_of_mem _ hl2)

/-!
Helper evaluations of the rational-valued models (the kernel cannot reduce
rational normalization, so these are established by `norm_num`).
-/

lemma fmt1_35 : fmt1 35 = "35.0" := by
  unfold fmt1
  rw [show (35 : ℚ) * 10 + 1 / 2 = 701 / 2 by norm_num]
  rw [show ⌊(701 / 2 : ℚ)⌋ = 350 by rw [Int.floor_eq_iff]; norm_num]
  rfl

lemma fmt1_pct_35_60 : fmt1 (35 / 60 * 100) = "58.3" := by
  unfold fmt1
  rw [show (35 / 60 * 100 : ℚ) * 10 + 1 / 2 = 3503 / 6 by norm_num]
  rw [show ⌊(3503 / 6 : ℚ)⌋ = 583 by rw [Int.floor_eq_iff]; norm_num]
  rfl

lemma compare_scores_60_95 :
    compare_scores 60 95
      = ["🌟 Excellent improvement! Score increased by 35.0 points (58.3%)",
         "Your resume is now highly optimized for ATS systems"] := by
  simp only [compare_scores]
  rw [show (95 : ℚ) - 60 = 35 by norm_num]
  rw [if_pos (by norm_num : (30 : ℚ) < 35)]
  rw [if_pos (by norm_num : (0 : ℚ) < 60)]
  rw [fmt1_35, fmt1_pct_35_60]
  rfl

lemma compare_scores_60_58 :
    compare_scores 60 58 = ["Score maintained from original version"] := by
  simp only [compare_scores]
  rw [show (58 : ℚ) - 60 = -2 by norm_num]
  rw [if_neg (by norm_num : ¬ (30 : ℚ) < -2)]
  rw [if_neg (by norm_num : ¬ (15 : ℚ) < -2)]
  rw [if_neg (by norm_num : ¬ (5 : ℚ) < -2)]
  rw [if_neg (by norm_num : ¬ (0 : ℚ) ≤ -2)]

/-!
Claim theorems.
-/

/-- C1: `calculate_ats_score` never raises: when the AI call fails, when
the completion has no brace span, or when the extracted span fails to
parse as JSON, it returns the fixed default result, whose score is 65 and
whose missing_keywords, suggestions, sections_analysis and summary are the
canned values; otherwise it returns the parsed value. -/
theorem claim_C1_ats_default_fallback :
    calculate_ats_score .err = get_default_score
    ∧ (∀ t : String, gSpan '\x7b' '\x7d' (pyStrip (toL t)) = none →
        calculate_ats_score (.ok t) = get_default_score)
    ∧ (∀ (t : String) (sp : List Char), gSpan '\x7b' '\x7d' (pyStrip (toL t)) = some sp →
        parseJson (String.mk sp) = none →
        calculate_ats_score (.ok t) = get_default_score)
    ∧ (∀ (t : String) (sp : List Char) (v : JValue),
        gSpan '\x7b' '\x7d' (pyStrip (toL t)) = some sp →
        parseJson (String.mk sp) = some v →
        calculate_ats_score (.ok t) = v)
    ∧ jGet get_default_score "score" = some (.jnum 65)
    ∧ jGet get_default_score "missing_keywords" = some (.jarr [
        .jstr "achievement metrics",
        .jstr "action verbs",
        .jstr "relevant certifications",
        .jstr "quantifiable results"])
    ∧ jGet get_default_score "suggestions" = some (.jarr [
        .jstr "Add quantifiable achievements with numbers/percentages",
        .jstr "Use strong action verbs (Led, Developed, Implemented, etc.)",
        .jstr "Include relevant keywords from job description",
        .jstr "Ensure clear section headers (Experience, Education, Skills)",
        .jstr "Keep formatting simple and ATS-friendly (no tables or graphics)"])
    ∧ jGet get_default_score "sections_analysis" = some (.jobj [
        ("contact_info", .jobj [("score", .jnum 85), ("issues", .jarr [])]),
        ("experience", .jobj [("score", .jnum 70), ("issues", .jarr [
          .jstr "Add more quantifiable results", .jstr "Use stronger action verbs"])]),
        ("education", .jobj [("score", .jnum 80), ("issues", .jarr [])]),
        ("skills", .jobj [("score", .jnum 60), ("issues", .jarr [
          .jstr "Add more relevant technical skills", .jstr "Include industry keywords"])])])
    ∧ jGet get_default_score "summary" = some (.jstr
        "Resume has moderate ATS compatibility. Focus on quantifiable achievements and relevant keywords.") := by
  refine ⟨rfl, ?_, ?_, ?_, rfl, rfl, rfl, rfl, rfl⟩
  · intro t h
    simp only [calculate_ats_score, h]
  · intro t sp h1 h2
    simp only [calculate_ats_score, h1, h2]
  · intro t sp v h1 h2
    simp only [calculate_ats_score, h1, h2]

theorem claim_C1_witness :
    calculate_ats_score (.ok "The score\nis \x7b\"score\": 80\x7d ok") = .jobj [("score", .jnum 80)]
    ∧ calculate_ats_score (.ok "no json here") = get_default_score
    ∧ calculate_ats_score (.ok " \x7boops\x7d ") = get_default_score :=
  ⟨claim_C1_ats_default_fallback.2.2.2.1 _ (toL "\x7b\"score\": 80\x7d") _ rfl rfl,
   claim_C1_ats_default_fallback.2.1 _ rfl,
   claim_C1_ats_default_fallback.2.2.1 _ (toL "\x7boops\x7d") rfl rfl⟩

/-- C2: `enhance_resume_content` never raises and returns the original
record unchanged whenever the AI call raises, the completion has no brace
span, or the extracted span fails to parse as JSON. -/
theorem claim_C2_enhance_passthrough :
    ∀ resume_data : JValue,
      enhance_resume_content resume_data .err = resume_data
      ∧ (∀ t : String, gSpan '\x7b' '\x7d' (pyStrip (toL t)) = none →
          enhance_resume_content resume_data (.ok t) = resume_data)
      ∧ (∀ (t : String) (sp : List Char),
          gSpan '\x7b' '\x7d' (pyStrip (toL t)) = some sp →
          parseJson (String.mk sp) = none →
          enhance_resume_content resume_data (.ok t) = resume_data) := by
  intro rd
  refine ⟨rfl, ?_, ?_⟩
  · intro t h
    simp only [enhance_resume_content, h]
  · intro t sp h1 h2
    simp only [enhance_resume_content, h1, h2]

theorem claim_C2_witness :
    enhance_resume_content (.jobj [("name", .jstr "Ann")]) .err = .jobj [("name", .jstr "Ann")]
    ∧ enhance_resume_content (.jobj [("name", .jstr "Ann")]) (.ok "sorry, no data")
        = .jobj [("name", .jstr "Ann")]
    ∧ enhance_resume_content (.jobj [("name", .jstr "Ann")]) (.ok "\x7bbroken\x7d")
        = .jobj [("name", .jstr "Ann")] :=
  ⟨(claim_C2_enhance_passthrough _).1,
   (claim_C2_enhance_passthrough _).2.1 _ rfl,
   (claim_C2_enhance_passthrough _).2.2 _ (toL "\x7bbroken\x7d") rfl rfl⟩

/-- C4: the AI response interpreter parses exactly the greedy span from
the first opening brace to the last closing brace (bracket for arrays),
with dot matching newlines and no balanced-brace parsing; on the sample
completion it extracts and parses the object with score 80. -/
theorem claim_C4_greedy_span :
    (∀ pre mid post : List Char, '\x7b' ∉ pre → '\x7d' ∉ post →
      gSpan '\x7b' '\x7d' (pre ++ ('\x7b' :: (mid ++ ('\x7d' :: post))))
        = some ('\x7b' :: (mid ++ ['\x7d'])))
    ∧ (∀ pre mid post : List Char, '[' ∉ pre → ']' ∉ post →
      gSpan '[' ']' (pre ++ ('[' :: (mid ++ (']' :: post))))
        = some ('[' :: (mid ++ [']'])))
    ∧ gSpan '\x7b' '\x7d' (toL "noise noise \x7b\"score\": 80\x7d trailing")
        = some (toL "\x7b\"score\": 80\x7d")
    ∧ parseJson "\x7b\"score\": 80\x7d" = some (.jobj [("score", .jnum 80)]) :=
  ⟨fun pre mid post h1 h2 => gSpan_spec _ _ pre mid post h1 h2,
   fun pre mid post h1 h2 => gSpan_spec _ _ pre mid post h1 h2,
   rfl, rfl⟩

theorem claim_C4_witness :
    gSpan '\x7b' '\x7d'
        (toL "a\x7d b" ++ ('\x7b' :: (toL "\x7d x \x7b\n" ++ ('\x7d' :: toL " c"))))
      = some ('\x7b' :: (toL "\x7d x \x7b\n" ++ ['\x7d'])) :=
  claim_C4_greedy_span.1 (toL "a\x7d b") (toL "\x7d x \x7b\n") (toL " c")
    (by decide) (by decide)

/-- C8: `suggest_improvements` never raises, and its failure modes are
asymmetric: no bracket span yields the fixed canned list of exactly five
suggestions, while a located span that fails to parse yields the empty
sequence (as does a raising AI call). -/
theorem claim_C8_suggest_asymmetry :
    suggest_improvements .err = .jarr []
    ∧ (∀ t : String, gSpan '[' ']' (pyStrip (toL t)) = none →
        suggest_improvements (.ok t) = canned_suggestions)
    ∧ (∃ items : List JValue, canned_suggestions = .jarr items ∧ items.length = 5)
    ∧ (∀ (t : String) (sp : List Char), gSpan '[' ']' (pyStrip (toL t)) = some sp →
        parseJson (String.mk sp) = none →
        suggest_improvements (.ok t) = .jarr []) := by
  refine ⟨rfl, ?_, ⟨_, rfl, rfl⟩, ?_⟩
  · intro t h
    simp only [suggest_improvements, h]
  · intro t sp h1 h2
    simp only [suggest_improvements, h1, h2]

theorem claim_C8_witness :
    suggest_improvements (.ok "there is no array here") = canned_suggestions
    ∧ suggest_improvements (.ok "xx [1, oops] yy") = .jarr [] :=
  ⟨claim_C8_suggest_asymmetry.2.1 _ rfl,
   claim_C8_suggest_asymmetry.2.2.2 _ (toL "[1, oops]") rfl rfl⟩

/-- C7 counterexample: `compare_scores 60 95` does return two messages and
the first contains "35.0", but it does not contain "133.3%" (the code
prints diff / original * 100 = 58.3%), so the claim as stated is false. -/
theorem claim_C7_counterexample :
    (compare_scores 60 95).length = 2
    ∧ strContainsSub ((compare_scores 60 95).headD "") "35.0" = true
    ∧ strContainsSub ((compare_scores 60 95).headD "") "133.3%" = false := by
  rw [compare_scores_60_95]
  exact ⟨rfl, rfl, rfl⟩

/-- C7 amended: `compare_scores 60 95` returns exactly two messages whose
first contains "35.0" and "58.3%" (the percentage diff / original * 100
formatted to one decimal), and `compare_scores 60 58` returns exactly one
message containing "maintained from original version". -/
theorem claim_C7_compare_scores :
    compare_scores 60 95
      = ["🌟 Excellent improvement! Score increased by 35.0 points (58.3%)",
         "Your resume is now highly optimized for ATS systems"]
    ∧ strContainsSub ((compare_scores 60 95).headD "") "35.0" = true
    ∧ strContainsSub ((compare_scores 60 95).headD "") "58.3%" = true
    ∧ compare_scores 60 58 = ["Score maintained from original version"]
    ∧ strContainsSub ((compare_scores 60 58).headD "") "maintained from original version" = true := by
  rw [compare_scores_60_95, compare_scores_60_58]
  exact ⟨rfl, rfl, rfl, rfl, rfl⟩

/-- C3: for any input, both segmentation algorithms return a map whose
key set is exactly the six fixed section names, and every section whose
pattern (resp. keyword boundary) never matches keeps the empty string. -/
theorem claim_C3_fixed_keys :
    (∀ text : String, keysOf (extract_text_sections text)
        = ["summary", "experience", "education", "skills", "projects", "certifications"])
    ∧ (∀ text : String, keysOf (extract_sections text)
        = ["education", "experience", "skills", "projects", "certifications", "summary"])
    ∧ (∀ (text : String) (s : SectionName), findSynRest (synsL s) (toL text) = none →
        lookupA (key s) (extract_text_sections text) = some "")
    ∧ (∀ (text : String) (s : SectionName),
        (∀ l ∈ splitNl (toL text), lineSection l ≠ some s) →
        lookupA (key s) (extract_sections text) = some "") := by
  refine ⟨?_, ?_, ?_, ?_⟩
  · intro t
    unfold extract_text_sections
    rw [keysOf_foldH]
    rfl
  · intro t
    unfold extract_sections
    rw [keysOf_extractLoop]
    rfl
  · intro t s h
    simp only [lookupA_extract_text_sections, h]
  · intro t s h
    unfold extract_sections
    rw [lookupA_extractLoop_untouched s (splitNl (toL t)) sections0P none [] h (by simp),
      lookupA_sections0P]

theorem claim_C3_witness :
    lookupA (key .summary) (extract_text_sections "skills stuff") = some ""
    ∧ lookupA (key .projects) (extract_sections "Education\nMIT") = some "" :=
  ⟨claim_C3_fixed_keys.2.2.1 "skills stuff" .summary rfl,
   claim_C3_fixed_keys.2.2.2 "Education\nMIT" .projects (by decide)⟩

/-- C5 counterexample: the lookahead is not the union of all other
sections synonym lists.  On "employment x academic y" the experience
capture of the code runs through the education synonym "academic" to the
end, while the spec-worded union lookahead would stop before it. -/
theorem claim_C5_counterexample :
    lookupA (key .experience) (extract_text_sections "employment x academic y")
        = some "x academic y"
    ∧ lookupA (key .experience) (extract_text_sections_specLookahead "employment x academic y")
        = some "x"
    ∧ strContainsSub "x academic y" "academic" = true :=
  ⟨rfl, rfl, rfl⟩

/-- C5 amended: for each section the lookahead alternation consists of the
first-listed synonym of each later section in the fixed order (summary:
professional experience, education, skills, projects, certification;
experience: education, skills, projects, certification; education: skills,
projects, certification; skills: projects, certification; projects:
certification; certifications: none) plus end-of-text; the captured
content stops at the first position where one of those lookahead synonyms
matches, and a section whose own synonyms never match is empty. -/
theorem claim_C5_lookahead :
    ∀ (text : String) (s : SectionName),
      (findSynRest (synsL s) (toL text) = none →
        lookupA (key s) (extract_text_sections text) = some "")
      ∧ (∀ tail : List Char, findSynRest (synsL s) (toL text) = some tail →
          lookupA (key s) (extract_text_sections text)
            = some (String.mk (pyStrip (tail.take (firstStopLen (lasL s) tail))))
          ∧ (∀ j, j < firstStopLen (lasL s) tail → anySynB (lasL s) (tail.drop j) = false)
          ∧ (firstStopLen (lasL s) tail = tail.length
              ∨ anySynB (lasL s) (tail.drop (firstStopLen (lasL s) tail)) = true)) := by
  intro t s
  constructor
  · intro h
    simp only [lookupA_extract_text_sections, h]
  · intro tail h
    refine ⟨?_, fun j hj => firstStopLen_not_before _ _ j hj, firstStopLen_stop _ _⟩
    simp only [lookupA_extract_text_sections, h]

theorem claim_C5_witness :
    lookupA (key .skills) (extract_text_sections "skills python projects x") = some "python" :=
  ((claim_C5_lookahead "skills python projects x" .skills).2 (toL " python projects x") rfl).1

/-- C6: a short line containing a section keyword is a boundary: lines
before the first boundary are discarded, the boundary line itself lands in
no section content, and the content lines that follow it are committed to
the triggered section joined by newlines (here at the next boundary). -/
theorem claim_C6_boundary :
    ∀ (pre : List (List Char)) (b c1 c2 b2 : List Char) (s s2 : SectionName),
      (∀ l ∈ pre, lineSection l = none ∧ ('\n' : Char) ∉ l) →
      lineSection b = some s → ('\n' : Char) ∉ b →
      lineSection c1 = none → pyStrip c1 ≠ [] → ('\n' : Char) ∉ c1 →
      lineSection c2 = none → pyStrip c2 ≠ [] → ('\n' : Char) ∉ c2 →
      lineSection b2 = some s2 → ('\n' : Char) ∉ b2 →
      extract_sections (String.mk (joinNlL (pre ++ [b, c1, c2, b2])))
        = updateVal (key s) (String.mk (c1 ++ '\n' :: c2)) sections0P := by
  intro pre b c1 c2 b2 s s2 hpre hb hnb hc1 hs1 hn1 hc2 hs2 hn2 hb2 hnb2
  unfold extract_sections
  have htl : toL (String.mk (joinNlL (pre ++ [b, c1, c2, b2])))
      = joinNlL (pre ++ [b, c1, c2, b2]) := rfl
  rw [htl, splitNl_joinNlL _ (by simp) ?nlfree]
  case nlfree =>
    intro l hl
    rcases List.mem_append.mp hl with h | h
    · exact (hpre l h).2
    · simp only [List.mem_cons, List.mem_singleton, List.not_mem_nil, or_false] at h
      rcases h with rfl | rfl | rfl | rfl <;> assumption
  rw [extractLoop_discard pre _ _ fun l hl => (hpre l hl).1]
  simp [extractLoop, hb, hc1, hc2, hb2, hs1, hs2, commitAcc, joinNlL]

theorem claim_C6_witness :
    extract_sections (String.mk (joinNlL
        [toL "John Doe", toL "Education", toL "MIT", toL "BSc 2020", toL "Projects"]))
      = updateVal (key .education) (String.mk (toL "MIT" ++ '\n' :: toL "BSc 2020")) sections0P :=
  claim_C6_boundary [toL "John Doe"] (toL "Education") (toL "MIT") (toL "BSc 2020")
    (toL "Projects") .education .projects
    (by decide) (by decide) (by decide) (by decide) (by decide) (by decide)
    (by decide) (by decide) (by decide) (by decide) (by decide)

/-- C10: a whitespace-only line is never appended to the accumulator: no
non-empty section value of the line scan contains a blank line, and two
non-blank content lines separated by a blank line end up joined by a
single newline. -/
theorem claim_C10_blank_lines_dropped :
    (∀ text k v : String, lookupA k (extract_sections text) = some v →
      v = "" ∨ ∀ l ∈ splitNl (toL v), pyStrip l ≠ [])
    ∧ (∀ (b c1 blank c2 : List Char) (s : SectionName),
        lineSection b = some s → ('\n' : Char) ∉ b →
        lineSection c1 = none → pyStrip c1 ≠ [] → ('\n' : Char) ∉ c1 →
        lineSection blank = none → pyStrip blank = [] → ('\n' : Char) ∉ blank →
        lineSection c2 = none → pyStrip c2 ≠ [] → ('\n' : Char) ∉ c2 →
        extract_sections (String.mk (joinNlL [b, c1, blank, c2]))
          = updateVal (key s) (String.mk (c1 ++ '\n' :: c2)) sections0P) := by
  constructor
  · intro t k v h
    refine extractLoop_blankfree (splitNl (toL t)) sections0P none [] ?_ (by simp)
      (splitNl_no_nl _) (k, v) (mem_of_lookupA _ _ _ h)
    intro p hp
    simp only [sections0P, List.mem_cons, List.not_mem_nil, or_false] at hp
    rcases hp with rfl | rfl | rfl | rfl | rfl | rfl <;> exact Or.inl rfl
  · intro b c1 blank c2 s hb hnb hc1 hs1 hn1 hbl hsbl hnbl hc2 hs2 hn2
    unfold extract_sections
    have htl : toL (String.mk (joinNlL [b, c1, blank, c2]))
        = joinNlL [b, c1, blank, c2] := rfl
    rw [htl, splitNl_joinNlL _ (by simp) ?nlfree2]
    case nlfree2 =>
      intro l hl
      simp only [List.mem_cons, List.not_mem_nil, or_false] at hl
      rcases hl with rfl | rfl | rfl | rfl <;> assumption
    simp [extractLoop, hb, hc1, hbl, hsbl, hc2, hs1, hs2, commitAcc, joinNlL]

theorem claim_C10_witness :
    (("Python" : String) = "" ∨ ∀ l ∈ splitNl (toL "Python"), pyStrip l ≠ [])
    ∧ extract_sections (String.mk (joinNlL [toL "Skills", toL "Python", toL "   ", toL "SQL"]))
        = updateVal (key .skills) (String.mk (toL "Python" ++ '\n' :: toL "SQL")) sections0P :=
  ⟨claim_C10_blank_lines_dropped.1 "Skills\nPython" "skills" "Python" rfl,
   claim_C10_blank_lines_dropped.2 (toL "Skills") (toL "Python") (toL "   ") (toL "SQL") .skills
     (by decide) (by decide) (by decide) (by decide) (by decide) (by decide)
     (by decide) (by decide) (by decide) (by decide) (by decide)⟩

/-- C9: keyword density is 0 when the text has no whitespace tokens, and
otherwise the share of tokens containing the lower-cased keyword as a
substring, times 100, rounded to two decimals; in particular the empty
text gives 0.0 and "java javascript" against "java" gives 100.0. -/
theorem claim_C9_keyword_density :
    (∀ text keyword : String, splitWs (lowerL (toL text)) = [] →
      get_keyword_density text keyword = 0)
    ∧ (∀ (text keyword : String) (ws : List (List Char)),
        ws = splitWs (lowerL (toL text)) → ws ≠ [] →
        get_keyword_density text keyword
          = round2 (((ws.countP fun w => hasSub (lowerL (toL keyword)) w) : ℚ)
              / (ws.length : ℚ) * 100))
    ∧ get_keyword_density "" "x" = 0
    ∧ get_keyword_density "java javascript" "java" = 100 := by
  refine ⟨?_, ?_, rfl, ?_⟩
  · intro t k h
    simp only [get_keyword_density, h]
    rfl
  · intro t k ws hws hne
    simp only [get_keyword_density, ← hws]
    rw [if_neg fun hh => hne (List.length_eq_zero.mp hh)]
  · have h1 : get_keyword_density "java javascript" "java"
        = round2 ((((2 : Nat) : ℚ)) / (((2 : Nat) : ℚ)) * 100) := rfl
    rw [h1, show (((2 : Nat) : ℚ)) / (((2 : Nat) : ℚ)) * 100 = 100 by norm_num]
    have hfl : ⌊(100 : ℚ) * 100⌋ = 10000 := by
      rw [show (100 : ℚ) * 100 = 10000 by norm_num, Int.floor_eq_iff]
      norm_num
    simp only [round2, rhe, hfl]
    rw [if_pos (by norm_num : (100 : ℚ) * 100 - ((10000 : ℤ) : ℚ) < 1 / 2)]
    norm_num

theorem claim_C9_witness :
    get_keyword_density "   " "a" = 0
    ∧ get_keyword_density "ab" "a"
        = round2 ((([toL "ab"].countP fun w => hasSub (lowerL (toL "a")) w) : ℚ)
            / (([toL "ab"] : List (List Char)).length : ℚ) * 100) :=
  ⟨claim_C9_keyword_density.1 "   " "a" rfl,
   claim_C9_keyword_density.2.1 "ab" "a" [toL "ab"] rfl (by decide)⟩

end ResumeBackend
